import Mathlib

/-!
Verification of the transactional key-value store in src/database.py.

The store keeps three pieces of state (mirroring Database.__init__):
- database: the base table, a dict from keys to values;
- value_count: a defaultdict(int) from values to occurrence counts;
- pending_transactions_list: a list of overlay dicts, the last one being
  the innermost open transaction block; an overlay entry of none is the
  tombstone written by unset inside a transaction.

Python dicts are embedded as association lists with unique keys; defaultdict
reads that insert a zero entry are modelled explicitly (dtouch).  Python
string truthiness (used by the source in tests such as `if orig_val`) is
modelled as inequality with the empty string.
-/

abbrev Key := String
abbrev Val := String

/-- Lookup in an association list: first entry whose key matches, as the
Python dict read d.get(k) / d[k]. -/
def alookup (k : Key) : List (Key × α) → Option α
  | [] => none
  | (k', v') :: rest => if k' = k then some v' else alookup k rest

/-- Python dict assignment d[k] = v: replace the first entry for k in place,
else append a new entry. -/
def aset (k : Key) (v : α) : List (Key × α) → List (Key × α)
  | [] => [(k, v)]
  | (k', v') :: rest => if k' = k then (k, v) :: rest else (k', v') :: aset k v rest

/-- Python dict deletion del d[k]: remove the first entry for k. -/
def adel (k : Key) : List (Key × α) → List (Key × α)
  | [] => []
  | (k', v') :: rest => if k' = k then rest else (k', v') :: adel k rest

/-- Python list.remove(k): drop the first occurrence of k, if any. -/
def lerase (k : Key) : List Key → List Key
  | [] => []
  | x :: rest => if x = k then rest else x :: lerase k rest

/-- Read of a defaultdict(int): stored count, or zero when absent. -/
def dget (d : List (Val × Int)) (v : Val) : Int :=
  match alookup v d with
  | some c => c
  | none => 0

/-- Side effect of reading a defaultdict(int): a missing key is inserted
with the default value zero. -/
def dtouch (d : List (Val × Int)) (v : Val) : List (Val × Int) :=
  match alookup v d with
  | some _ => d
  | none => d ++ [(v, 0)]

/-- Python d[v] += delta on a defaultdict(int): read (inserting zero when
absent) then store the updated count. -/
def dincr (d : List (Val × Int)) (v : Val) (delta : Int) : List (Val × Int) :=
  aset v (dget d v + delta) (dtouch d v)

/-- Python self.pending_transactions_list[-1][key] = entry: update the last
overlay of the stack (no effect on an empty stack, which the source never
does because the write is guarded). -/
def setInLast (k : Key) (e : Option Val) : List (List (Key × Option Val)) → List (List (Key × Option Val))
  | [] => []
  | [t] => [aset k e t]
  | t :: rest => t :: setInLast k e rest

/-- Checks that an association list has pairwise distinct keys, as every
Python dict does. -/
def nodupKeys : List (Key × α) → Bool
  | [] => true
  | (k, _) :: rest => (alookup k rest).isNone && nodupKeys rest

/-- Checks that every stored value is truthy in the Python sense, that is,
a non-empty string.  Values reaching the store through the command
dispatcher are non-empty tokens. -/
def allTruthy : List (Key × Val) → Bool
  | [] => true
  | (_, v) :: rest => (v != "") && allTruthy rest

/-- Checks that no overlay of the given stack mentions the key. -/
def keyUntouched (k : Key) : List (List (Key × Option Val)) → Bool
  | [] => true
  | t :: rest => (alookup k t).isNone && keyUntouched k rest

/-- The state of Database (src/database.py, __init__): base table,
value-count index, and stack of pending transaction overlays (last entry
innermost). -/
structure Database where
  database : List (Key × Val)
  value_count : List (Val × Int)
  pending_transactions_list : List (List (Key × Option Val))
deriving Repr, DecidableEq

/-- The freshly initialised database. -/
def Database.init : Database := ⟨[], [], []⟩

/-- Database.set (src/database.py lines 35-50).  Writes into the innermost
overlay when a transaction is open and the commit flag is off, else into
the base table; when the commit flag is off it increments the count of the
new value and decrements the count of the previous base-table value when
that one is truthy and different. -/
def Database.set (db : Database) (key : Key) (value : Val) (commit : Bool) : Database :=
  let orig_val := alookup key db.database
  let db1 :=
    if !db.pending_transactions_list.isEmpty && !commit then
      { db with pending_transactions_list := setInLast key (some value) db.pending_transactions_list }
    else
      { db with database := aset key value db.database }
  if !commit then
    let vc1 := dincr db1.value_count value 1
    match orig_val with
    | some ov =>
      if ov ≠ "" ∧ ov ≠ value then { db1 with value_count := dincr vc1 ov (-1) }
      else { db1 with value_count := vc1 }
    | none => { db1 with value_count := vc1 }
  else db1

/-- Search the overlays in the given order, returning the first entry found
for the key; embeds the loop over reversed(pending_transactions_list) in
Database.get when applied to the reversed stack. -/
def searchOverlays (key : Key) : List (List (Key × Option Val)) → Option (Option Val)
  | [] => none
  | t :: rest =>
    match alookup key t with
    | some e => some e
    | none => searchOverlays key rest

/-- Database.get (src/database.py lines 52-69).  Returns the value the
method prints: the first overlay entry for the key scanning from the
innermost overlay outwards (none when that entry is a tombstone), else the
base-table value, else none (printed NULL).  The source method only reads
state, so it is embedded as a pure function. -/
def Database.get (db : Database) (key : Key) : Option Val :=
  if db.pending_transactions_list.isEmpty then alookup key db.database
  else
    match searchOverlays key db.pending_transactions_list.reverse with
    | some entry => entry
    | none => alookup key db.database

/-- Database.unset (src/database.py lines 71-85).  Writes a tombstone into
the innermost overlay when a transaction is open and the commit flag is
off, else deletes the key from the base table when its value is truthy;
when the commit flag is off and the previous base-table value is truthy
with a positive count, that count is decremented (the comparison itself
reads the defaultdict and hence inserts a zero entry when absent). -/
def Database.unset (db : Database) (key : Key) (commit : Bool) : Database :=
  let orig_val := alookup key db.database
  let db1 :=
    if !db.pending_transactions_list.isEmpty && !commit then
      { db with pending_transactions_list := setInLast key none db.pending_transactions_list }
    else
      match orig_val with
      | some ov => if ov ≠ "" then { db with database := adel key db.database } else db
      | none => db
  if !commit then
    match orig_val with
    | some ov =>
      if ov ≠ "" then
        let vc1 := dtouch db1.value_count ov
        if 0 < dget vc1 ov then { db1 with value_count := dincr vc1 ov (-1) }
        else { db1 with value_count := vc1 }
      else db1
    | none => db1
  else db1

/-- Database.numequalto (src/database.py lines 87-94).  Returns the printed
count together with the state after the call; the guarded defaultdict read
is modelled by dtouch so that the absence of mutation is a theorem rather
than a modelling assumption. -/
def Database.numequalto (db : Database) (value : Val) : Database × Int :=
  match alookup value db.value_count with
  | some c => ({ db with value_count := dtouch db.value_count value }, c)
  | none => (db, 0)

/-- Database.begin (src/database.py lines 96-100): push an empty overlay. -/
def Database.begin (db : Database) : Database :=
  { db with pending_transactions_list := db.pending_transactions_list ++ [[]] }

/-- Database.rollback (src/database.py lines 102-132).  Pops the innermost
overlay; the keys of that overlay that do not occur in any remaining
overlay (computed by repeated list removal) get their counts repaired
against the base table: increment the count of the truthy base value and
decrement the count of the popped non-tombstone entry.  Returns the new
state and a success flag (false prints NO TRANSACTION). -/
def Database.rollback (db : Database) : Database × Bool :=
  match db.pending_transactions_list.getLast? with
  | none => (db, false)
  | some transaction =>
    let remaining := db.pending_transactions_list.dropLast
    let keys0 := transaction.map Prod.fst
    let keys_to_update :=
      remaining.foldl (fun ks pending => (pending.map Prod.fst).foldl (fun ks2 pk => lerase pk ks2) ks) keys0
    let vc := keys_to_update.foldl (fun vc key =>
        let vc1 :=
          match alookup key db.database with
          | some ov => if ov ≠ "" then dincr vc ov 1 else vc
          | none => vc
        match alookup key transaction with
        | some (some tval) => dincr vc1 tval (-1)
        | _ => vc1) db.value_count
    ({ db with pending_transactions_list := remaining, value_count := vc }, true)

/-- One step of the commit loop body (src/database.py lines 143-153): skip
keys already processed, apply a tombstone through unset and a value through
set, both with the commit flag on, and record the key as processed. -/
def commitStep (acc : Database × List Key) (kv : Key × Option Val) : Database × List Key :=
  if kv.1 ∈ acc.2 then acc
  else
    match kv.2 with
    | none => (acc.1.unset kv.1 true, acc.2 ++ [kv.1])
    | some v => (acc.1.set kv.1 v true, acc.2 ++ [kv.1])

/-- Database.commit (src/database.py lines 134-157).  Processes the
overlays from innermost to outermost, applying each key at most once
directly to the base table, then clears the stack.  Returns the new state
and a success flag (false prints NO TRANSACTION). -/
def Database.commit (db : Database) : Database × Bool :=
  if db.pending_transactions_list.isEmpty then (db, false)
  else
    let res := db.pending_transactions_list.reverse.foldl
      (fun acc transaction => transaction.foldl commitStep acc) (db, [])
    ({ res.1 with pending_transactions_list := [] }, true)

/-- The operations a dispatcher client can issue against the store. -/
inductive Op where
  | opSet (k : Key) (v : Val)
  | opGet (k : Key)
  | opUnset (k : Key)
  | opNumequalto (v : Val)
  | opBegin
  | opRollback
  | opCommit

/-- State transition of one dispatched operation. -/

def applyOp (db : Database) : Op → Database
  | .opSet k v => db.set k v false
  | .opGet _ => db
  | .opUnset k => db.unset k false
  | .opNumequalto v => (db.numequalto v).1
  | .opBegin => db.begin
  | .opRollback => (db.rollback).1
  | .opCommit => (db.commit).1

/-- Runs a sequence of operations from a fresh store. -/
def runOps (ops : List Op) : Database := ops.foldl applyOp Database.init

/-- Follows the spec wording for the effective value (spec section 3):
scan the open overlays from the innermost, which is the last of the stack,
towards the outermost and return the first entry found for the key, a
tombstone entry meaning absent even when an outer overlay or the base
table holds a value. -/
def specFirstHit (key : Key) : List (List (Key × Option Val)) → Option (Option Val)
  | [] => none
  | t :: rest =>
    match specFirstHit key rest with
    | some e => some e
    | none => alookup key t

/-- Follows the spec wording for get: the effective value of the key, that
is, the first overlay hit scanning innermost to outermost, falling back to
the base table when no overlay defines the key, else absent. -/
def specEffectiveValue (db : Database) (key : Key) : Option Val :=
  match specFirstHit key db.pending_transactions_list with
  | some e => e
  | none => alookup key db.database

/-- Reachable state with an open transaction used to witness c4. -/
def dbC4 : Database := runOps [Op.opSet "a" "10", Op.opBegin, Op.opSet "b" "20"]

/-- State after SET a 10; SET a 10, the failing input of the index
consistency invariant. -/
def dbC1 : Database := runOps [Op.opSet "a" "10", Op.opSet "a" "10"]

/-- State after SET a 10; BEGIN; UNSET a; SET a 20, the failing input for
the non-negative index invariant. -/
def dbC8 : Database := runOps [Op.opSet "a" "10", Op.opBegin, Op.opUnset "a", Op.opSet "a" "20"]

/-- State after SET a 10; SET b 10; BEGIN; UNSET a, just before the second
unset of the failing input. -/
def dbC9 : Database := runOps [Op.opSet "a" "10", Op.opSet "b" "10", Op.opBegin, Op.opUnset "a"]

/-- State after BEGIN; SET a 10, inside one open transaction. -/
def dbC2 : Database := runOps [Op.opBegin, Op.opSet "a" "10"]

/-- State after BEGIN; SET a 10; BEGIN; SET a 20, two nested overlays both
touching the key a. -/
def dbC3 : Database := runOps [Op.opBegin, Op.opSet "a" "10", Op.opBegin, Op.opSet "a" "20"]

/-- State after SET a 10, the prior state of the C5 counterexample. -/
def dbC5 : Database := runOps [Op.opSet "a" "10"]

/-- Follows the amended claim wording for rollback: only the keys of the
popped overlay that no remaining overlay touches are repaired, and the
repair compares against the BASE table, not the next overlay down: the
count of the truthy base value of the key is incremented and the count of
a popped non-tombstone entry is decremented. -/
def amendedRollbackRepair (database : List (Key × Val)) (transaction : List (Key × Option Val))
    (remaining : List (List (Key × Option Val))) (vc0 : List (Val × Int)) : List (Val × Int) :=
  ((transaction.map Prod.fst).filter (fun key => keyUntouched key remaining)).foldl
    (fun vc key =>
      let vc1 :=
        match alookup key database with
        | some ov => if ov ≠ "" then dincr vc ov 1 else vc
        | none => vc
      match alookup key transaction with
      | some (some tval) => dincr vc1 tval (-1)
      | _ => vc1) vc0

/-- Reachable state with one open transaction touching two keys, used to
witness the amended rollback characterization. -/
def dbC3w : Database := runOps [Op.opSet "x" "1", Op.opBegin, Op.opSet "a" "10", Op.opUnset "x"]

theorem alookup_aset (k u : Key) (v : α) (d : List (Key × α)) :
    alookup u (aset k v d) = if k = u then some v else alookup u d := by
  induction d with
  | nil => simp [aset, alookup]
  | cons kv rest ih =>
    obtain ⟨k', v'⟩ := kv
    by_cases hk : k' = k
    · subst hk
      by_cases hu : k' = u <;> simp [aset, alookup, hu]
    · by_cases hu : k' = u
      · subst hu
        have hku : k ≠ k' := fun h => hk h.symm
        simp [aset, alookup, hk, hku]
      · simp [aset, alookup, hk, hu, ih]

theorem alookup_adel_ne (k u : Key) (d : List (Key × α)) (h : k ≠ u) :
    alookup u (adel k d) = alookup u d := by
  induction d with
  | nil => simp [adel]
  | cons kv rest ih =>
    obtain ⟨k', v'⟩ := kv
    by_cases hk : k' = k
    · subst hk
      have : k' ≠ u := fun hc => h hc
      simp [adel, alookup, this]
    · by_cases hu : k' = u
      · subst hu
        simp [adel, alookup, hk, ih]
      · simp [adel, alookup, hk, hu, ih]

theorem alookup_adel_self (k : Key) (d : List (Key × α)) (h : nodupKeys d = true) :
    alookup k (adel k d) = none := by
  induction d with
  | nil => simp [adel, alookup]
  | cons kv rest ih =>
    obtain ⟨k', v'⟩ := kv
    simp only [nodupKeys, Bool.and_eq_true] at h
    by_cases hk : k' = k
    · subst hk
      have hd : adel k' ((k', v') :: rest) = rest := by simp [adel]
      rw [hd]
      simpa [Option.isNone_iff_eq_none] using h.1
    · simp [adel, alookup, hk, ih h.2]

theorem nodupKeys_aset (k : Key) (v : α) (d : List (Key × α)) (h : nodupKeys d = true) :
    nodupKeys (aset k v d) = true := by
  induction d with
  | nil => simp [aset, nodupKeys, alookup]
  | cons kv rest ih =>
    obtain ⟨k', v'⟩ := kv
    simp only [nodupKeys, Bool.and_eq_true] at h
    by_cases hk : k' = k
    · subst hk
      simp [aset, nodupKeys, h.1, h.2]
    · simp only [aset, if_neg hk, nodupKeys, Bool.and_eq_true]
      refine ⟨?_, ih h.2⟩
      rw [alookup_aset]
      have : k ≠ k' := fun hc => hk hc.symm
      simp [this, h.1]

theorem nodupKeys_adel (k : Key) (d : List (Key × α)) (h : nodupKeys d = true) :
    nodupKeys (adel k d) = true := by
  induction d with
  | nil => simp [adel, nodupKeys]
  | cons kv rest ih =>
    obtain ⟨k', v'⟩ := kv
    simp only [nodupKeys, Bool.and_eq_true] at h
    by_cases hk : k' = k
    · subst hk; simp [adel, h.2]
    · simp only [adel, if_neg hk, nodupKeys, Bool.and_eq_true]
      refine ⟨?_, ih h.2⟩
      by_cases hku : k = k'
      · exact absurd hku.symm hk
      · rw [alookup_adel_ne _ _ _ hku]; exact h.1

theorem allTruthy_lookup (d : List (Key × Val)) (k : Key) (v : Val)
    (h : allTruthy d = true) (hl : alookup k d = some v) : v ≠ "" := by
  induction d with
  | nil => simp [alookup] at hl
  | cons kv rest ih =>
    obtain ⟨k', v'⟩ := kv
    simp only [allTruthy, Bool.and_eq_true, bne_iff_ne, ne_eq] at h
    by_cases hk : k' = k
    · simp only [alookup, if_pos hk] at hl
      cases hl; exact h.1
    · simp only [alookup, if_neg hk] at hl
      exact ih h.2 hl

theorem alookup_append (k : Key) (l1 l2 : List (Key × α)) :
    alookup k (l1 ++ l2) =
      (match alookup k l1 with
       | some v => some v
       | none => alookup k l2) := by
  induction l1 with
  | nil => simp [alookup]
  | cons kv rest ih =>
    obtain ⟨k', v'⟩ := kv
    by_cases hk : k' = k <;> simp [alookup, hk, ih]

theorem dget_dtouch (d : List (Val × Int)) (v u : Val) :
    dget (dtouch d v) u = dget d u := by
  unfold dtouch
  cases hv : alookup v d with
  | some c => rfl
  | none =>
    unfold dget
    rw [alookup_append]
    cases hu : alookup u d with
    | some c => rfl
    | none =>
      by_cases hvu : v = u
      · subst hvu; simp [alookup]
      · simp [alookup, hvu]

theorem dtouch_of_present (d : List (Val × Int)) (v : Val) (c : Int)
    (h : alookup v d = some c) : dtouch d v = d := by
  unfold dtouch; rw [h]

theorem dget_dincr (d : List (Val × Int)) (v : Val) (delta : Int) (u : Val) :
    dget (dincr d v delta) u = dget d u + (if u = v then delta else 0) := by
  unfold dincr
  by_cases hvu : v = u
  · subst hvu
    unfold dget
    rw [alookup_aset]
    simp
  · have : ¬ (u = v) := fun hc => hvu hc.symm
    conv_lhs => unfold dget
    rw [alookup_aset, if_neg hvu]
    have h2 := dget_dtouch d v u
    unfold dget at h2 ⊢
    rw [h2]
    simp [this]

theorem numequalto_snd (db : Database) (v : Val) :
    (db.numequalto v).2 = dget db.value_count v := by
  unfold Database.numequalto dget
  cases alookup v db.value_count <;> rfl

theorem foldl_inner_eq_join {α β : Type} (f : β → α → β) :
    ∀ (L : List (List α)) (b : β),
      L.foldl (fun acc l => l.foldl f acc) b = (L.flatten).foldl f b := by
  intro L
  induction L with
  | nil => intro b; rfl
  | cons l L ih => intro b; simp [List.foldl_append, ih]

theorem searchOverlays_append (key : Key) (l1 l2 : List (List (Key × Option Val))) :
    searchOverlays key (l1 ++ l2) =
      match searchOverlays key l1 with
      | some e => some e
      | none => searchOverlays key l2 := by
  induction l1 with
  | nil => simp [searchOverlays]
  | cons t rest ih =>
    simp only [List.cons_append, searchOverlays]
    cases alookup key t with
    | some e => rfl
    | none => simpa using ih

theorem searchOverlays_eq_alookup_join (key : Key) :
    ∀ ts : List (List (Key × Option Val)), searchOverlays key ts = alookup key ts.flatten := by
  intro ts
  induction ts with
  | nil => rfl
  | cons t rest ih =>
    simp only [searchOverlays, List.flatten_cons, alookup_append, ih]
    cases alookup key t <;> rfl

theorem setInLast_concat (k : Key) (e : Option Val) :
    ∀ (rest : List (List (Key × Option Val))) (t : List (Key × Option Val)),
      setInLast k e (rest ++ [t]) = rest ++ [aset k e t] := by
  intro rest
  induction rest with
  | nil => intro t; rfl
  | cons r rs ih =>
    intro t
    cases rs with
    | nil => rfl
    | cons r2 rs2 =>
      have h2 := ih t
      show r :: setInLast k e ((r2 :: rs2) ++ [t]) = r :: ((r2 :: rs2) ++ [aset k e t])
      rw [h2]

theorem set_true_components (db : Database) (k : Key) (v : Val) :
    (db.set k v true).database = aset k v db.database ∧
    (db.set k v true).value_count = db.value_count ∧
    (db.set k v true).pending_transactions_list = db.pending_transactions_list := by
  simp [Database.set]

theorem unset_true_components (db : Database) (k : Key) :
    (db.unset k true).database =
      (match alookup k db.database with
       | some ov => if ov ≠ "" then adel k db.database else db.database
       | none => db.database) ∧
    (db.unset k true).value_count = db.value_count ∧
    (db.unset k true).pending_transactions_list = db.pending_transactions_list := by
  unfold Database.unset
  cases h : alookup k db.database with
  | none => simp
  | some ov =>
    by_cases hov : ov = "" <;> simp [hov]

theorem commit_step_frame (acc : Database × List Key) (kv : Key × Option Val) :
    (commitStep acc kv).1.value_count = acc.1.value_count ∧
    (commitStep acc kv).1.pending_transactions_list = acc.1.pending_transactions_list := by
  unfold commitStep
  by_cases hmem : kv.1 ∈ acc.2
  · simp [hmem]
  · cases he : kv.2 with
    | none =>
      simp [hmem, (unset_true_components acc.1 kv.1).2.1, (unset_true_components acc.1 kv.1).2.2]
    | some v =>
      simp [hmem, (set_true_components acc.1 kv.1 v).2.1, (set_true_components acc.1 kv.1 v).2.2]

theorem commit_loop_frame :
    ∀ (l : List (Key × Option Val)) (acc : Database × List Key),
      (l.foldl commitStep acc).1.value_count = acc.1.value_count ∧
      (l.foldl commitStep acc).1.pending_transactions_list = acc.1.pending_transactions_list := by
  intro l
  induction l with
  | nil => intro acc; exact ⟨rfl, rfl⟩
  | cons kv l ih =>
    intro acc
    rw [List.foldl_cons]
    exact ⟨(ih _).1.trans (commit_step_frame acc kv).1,
           (ih _).2.trans (commit_step_frame acc kv).2⟩

theorem commit_step_lookup_ne (acc : Database × List Key) (kv : Key × Option Val) (k : Key)
    (hne : kv.1 ≠ k) :
    alookup k (commitStep acc kv).1.database = alookup k acc.1.database := by
  unfold commitStep
  by_cases hmem : kv.1 ∈ acc.2
  · simp [hmem]
  · cases he : kv.2 with
    | none =>
      simp only [hmem, ite_false]
      rw [(unset_true_components acc.1 kv.1).1]
      cases ho : alookup kv.1 acc.1.database with
      | none => rfl
      | some ov =>
        by_cases hov : ov = ""
        · simp [hov]
        · simp only [hov, ne_eq, not_false_iff, if_true]
          exact alookup_adel_ne kv.1 k acc.1.database hne
    | some v =>
      simp only [hmem, ite_false]
      rw [(set_true_components acc.1 kv.1 v).1, alookup_aset]
      simp [hne]

theorem commit_step_nodup (acc : Database × List Key) (kv : Key × Option Val)
    (h : nodupKeys acc.1.database = true) :
    nodupKeys (commitStep acc kv).1.database = true := by
  unfold commitStep
  by_cases hmem : kv.1 ∈ acc.2
  · simpa [hmem] using h
  · cases he : kv.2 with
    | none =>
      simp only [hmem, ite_false]
      rw [(unset_true_components acc.1 kv.1).1]
      cases ho : alookup kv.1 acc.1.database with
      | none => exact h
      | some ov =>
        by_cases hov : ov = ""
        · simpa [hov] using h
        · simp only [hov, ne_eq, not_false_iff, if_true]
          exact nodupKeys_adel _ _ h
    | some v =>
      simp only [hmem, ite_false]
      rw [(set_true_components acc.1 kv.1 v).1]
      exact nodupKeys_aset _ _ _ h

theorem commit_loop_processed (k : Key) :
    ∀ (l : List (Key × Option Val)) (acc : Database × List Key),
      k ∈ acc.2 →
      alookup k ((l.foldl commitStep acc).1.database) = alookup k acc.1.database ∧
      k ∈ (l.foldl commitStep acc).2 := by
  intro l
  induction l with
  | nil => intro acc h; exact ⟨rfl, h⟩
  | cons kv l ih =>
    intro acc h
    rw [List.foldl_cons]
    have hmemstep : k ∈ (commitStep acc kv).2 := by
      unfold commitStep
      by_cases hmem : kv.1 ∈ acc.2
      · simpa [hmem] using h
      · cases kv.2 <;> simp [hmem, h]
    have hlook : alookup k (commitStep acc kv).1.database = alookup k acc.1.database := by
      by_cases hk : kv.1 = k
      · subst hk
        unfold commitStep
        simp [h]
      · exact commit_step_lookup_ne acc kv k hk
    obtain ⟨ha, hb⟩ := ih (commitStep acc kv) hmemstep
    exact ⟨ha.trans hlook, hb⟩

theorem commit_loop_lookup (k : Key) :
    ∀ (l : List (Key × Option Val)) (acc : Database × List Key),
      nodupKeys acc.1.database = true →
      (∀ v, alookup k acc.1.database = some v → v ≠ "") →
      k ∉ acc.2 →
      alookup k ((l.foldl commitStep acc).1.database) =
        (match alookup k l with
         | some (some v) => some v
         | some none => none
         | none => alookup k acc.1.database) := by
  intro l
  induction l with
  | nil => intro acc _ _ _; rfl
  | cons kv l ih =>
    intro acc hnodup htruthy hnotmem
    obtain ⟨k1, e1⟩ := kv
    rw [List.foldl_cons]
    by_cases hk1 : k1 = k
    · subst hk1
      have hskip : ¬ (k1 ∈ acc.2) := hnotmem
      cases he1 : e1 with
      | some v =>
        have hstep : commitStep acc (k1, some v) = (acc.1.set k1 v true, acc.2 ++ [k1]) := by
          unfold commitStep
          simp [hskip]
        have hbase : alookup k1 ((commitStep acc (k1, some v)).1.database) = some v := by
          rw [hstep, (set_true_components acc.1 k1 v).1, alookup_aset]
          simp
        have hmem2 : k1 ∈ (commitStep acc (k1, some v)).2 := by
          rw [hstep]; simp
        have hres := commit_loop_processed k1 l (commitStep acc (k1, some v)) hmem2
        rw [hres.1, hbase]
        simp [alookup]
      | none =>
        have hstep : commitStep acc (k1, none) = (acc.1.unset k1 true, acc.2 ++ [k1]) := by
          unfold commitStep
          simp [hskip]
        have hbase : alookup k1 ((commitStep acc (k1, none)).1.database) = none := by
          rw [hstep, (unset_true_components acc.1 k1).1]
          cases ho : alookup k1 acc.1.database with
          | none => exact ho
          | some ov =>
            have hov : ov ≠ "" := htruthy ov ho
            simp only [hov, ne_eq, not_false_iff, if_true]
            exact alookup_adel_self k1 acc.1.database hnodup
        have hmem2 : k1 ∈ (commitStep acc (k1, none)).2 := by
          rw [hstep]; simp
        have hres := commit_loop_processed k1 l (commitStep acc (k1, none)) hmem2
        rw [hres.1, hbase]
        simp [alookup]
    · have hhead : alookup k ((k1, e1) :: l) = alookup k l := by
        simp [alookup, hk1]
      rw [hhead]
      by_cases hmem : k1 ∈ acc.2
      · have hstep : commitStep acc (k1, e1) = acc := by
          unfold commitStep
          simp [hmem]
        rw [hstep]
        exact ih acc hnodup htruthy hnotmem
      · have hlook := commit_step_lookup_ne acc (k1, e1) k hk1
        have hnodup2 := commit_step_nodup acc (k1, e1) hnodup
        have htruthy2 : ∀ v, alookup k ((commitStep acc (k1, e1)).1.database) = some v → v ≠ "" := by
          intro v hv
          rw [hlook] at hv
          exact htruthy v hv
        have hnotmem2 : k ∉ (commitStep acc (k1, e1)).2 := by
          have hkne : ¬ k = k1 := fun h => hk1 h.symm
          unfold commitStep
          cases e1 <;> simp [hmem, hnotmem, hkne]
        have := ih (commitStep acc (k1, e1)) hnodup2 htruthy2 hnotmem2
        rw [this, hlook]

theorem get_eq_flatten (db : Database) (k : Key) :
    db.get k =
      (match alookup k (db.pending_transactions_list.reverse.flatten) with
       | some e => e
       | none => alookup k db.database) := by
  unfold Database.get
  cases hp : db.pending_transactions_list with
  | nil => simp [alookup]
  | cons t rest =>
    have hie : (t :: rest).isEmpty = false := rfl
    rw [hie]
    simp only [Bool.false_eq_true, if_false]
    rw [searchOverlays_eq_alookup_join]

theorem specFirstHit_eq_search (key : Key) :
    ∀ l, specFirstHit key l = searchOverlays key l.reverse := by
  intro l
  induction l with
  | nil => rfl
  | cons t rest ih =>
    rw [specFirstHit, ih, List.reverse_cons, searchOverlays_append]
    cases searchOverlays key rest.reverse with
    | some e => rfl
    | none =>
      show alookup key t = searchOverlays key [t]
      rw [searchOverlays]
      cases alookup key t <;> rfl

/-- C6: get returns the effective value of the key exactly as the spec
defines it: overlays searched innermost to outermost, first hit wins, a
tombstone hit returns absent even when an outer overlay or the base table
holds a value, and the base table is the fallback.  The source method only
reads state, so the embedding is a pure function and get mutates nothing. -/
theorem c6_get_effective_value (db : Database) (key : Key) :
    db.get key = specEffectiveValue db key := by
  unfold Database.get specEffectiveValue
  rw [specFirstHit_eq_search]
  cases hp : db.pending_transactions_list with
  | nil => simp [searchOverlays]
  | cons t rest => rfl

/-- C4: on every well-formed state with a non-empty transaction stack,
commit succeeds, clears the stack, leaves the value-count index unchanged,
and produces a base table that agrees pointwise with the effective state
that held immediately before the commit. -/
theorem c4_commit_flattens (db : Database)
    (hne : db.pending_transactions_list ≠ [])
    (hnodup : nodupKeys db.database = true)
    (htruthy : allTruthy db.database = true) :
    (db.commit).2 = true ∧
    (db.commit).1.pending_transactions_list = [] ∧
    (db.commit).1.value_count = db.value_count ∧
    ∀ k, alookup k ((db.commit).1.database) = db.get k := by
  have hie : db.pending_transactions_list.isEmpty = false := by
    cases hp : db.pending_transactions_list with
    | nil => exact absurd hp hne
    | cons t rest => rfl
  have hcommit : db.commit =
      ({ (db.pending_transactions_list.reverse.flatten.foldl commitStep (db, [])).1 with
          pending_transactions_list := [] }, true) := by
    unfold Database.commit
    rw [hie]
    simp only [Bool.false_eq_true, if_false]
    rw [foldl_inner_eq_join]
  rw [hcommit]
  refine ⟨rfl, rfl, ?_, ?_⟩
  · exact (commit_loop_frame _ (db, [])).1
  · intro k
    have hl := commit_loop_lookup k db.pending_transactions_list.reverse.flatten (db, [])
      hnodup (fun v hv => allTruthy_lookup db.database k v htruthy hv) (by simp)
    rw [get_eq_flatten]
    show alookup k ((db.pending_transactions_list.reverse.flatten.foldl commitStep (db, [])).1.database) = _
    rw [hl]
    cases alookup k db.pending_transactions_list.reverse.flatten with
    | none => rfl
    | some e => cases e <;> rfl

/-- Witness for c4_commit_flattens at a concrete reachable state. -/
theorem c4_commit_flattens_witness :
    (dbC4.pending_transactions_list ≠ [] ∧
     nodupKeys dbC4.database = true ∧
     allTruthy dbC4.database = true) ∧
    alookup "b" ((dbC4.commit).1.database) = dbC4.get "b" :=
  ⟨⟨by decide, by decide, by decide⟩,
   (c4_commit_flattens dbC4 (by decide) (by decide) (by decide)).2.2.2 "b"⟩

/-- C7: with an empty transaction stack both rollback and commit signal
NoTransaction (the returned flag is false and the source prints NO
TRANSACTION) and the state is returned unchanged. -/
theorem c7_empty_stack_no_transaction (db : Database)
    (h : db.pending_transactions_list = []) :
    db.rollback = (db, false) ∧ db.commit = (db, false) := by
  constructor
  · unfold Database.rollback
    rw [h]
    rfl
  · unfold Database.commit
    rw [h]
    rfl

/-- Witness for c7_empty_stack_no_transaction at the fresh store. -/
theorem c7_empty_stack_no_transaction_witness :
    Database.init.pending_transactions_list = [] ∧
    Database.init.rollback = (Database.init, false) ∧
    Database.init.commit = (Database.init, false) :=
  ⟨rfl, (c7_empty_stack_no_transaction Database.init rfl).1,
        (c7_empty_stack_no_transaction Database.init rfl).2⟩

/-- C10: numequalto mutates nothing: the state after the call is the state
before it, for every state and every queried value, including values with
no index entry, for which no entry is created because the source guards
the defaultdict read with a membership test. -/
theorem c10_numequalto_pure (db : Database) (v : Val) :
    (db.numequalto v).1 = db := by
  unfold Database.numequalto
  cases h : alookup v db.value_count with
  | none => rfl
  | some c =>
    show { db with value_count := dtouch db.value_count v } = db
    rw [dtouch_of_present db.value_count v c h]

/-- C1: the index consistency invariant fails on the code: after setting
the same key to the same value twice, numequalto 10 returns 2 while the
key a is the only key whose get returns 10, because set increments the
count of the new value unconditionally and only decrements the previous
value when it differs. -/
theorem c1_index_consistency_violated :
    (dbC1.numequalto "10").2 = 2 ∧
    (∀ k, dbC1.get k = if k = "a" then some "10" else none) := by
  constructor
  · decide
  · intro k
    have hdb : dbC1 = ⟨[("a", "10")], [("10", 2)], []⟩ := by decide
    rw [hdb]
    unfold Database.get
    by_cases hk : k = "a"
    · subst hk
      simp [alookup]
    · have hk2 : ¬ ("a" = k) := fun h => hk h.symm
      simp [alookup, hk, hk2]

/-- C8: the value-count index reaches a negative count on a real run: the
unset inside the transaction decrements the count of 10 to zero and the
following set decrements it again (the previous base value 10 still
differs from 20), so numequalto 10 returns minus one. -/
theorem c8_negative_count_reachable :
    (dbC8.numequalto "10").2 = -1 ∧ alookup "10" dbC8.value_count = some (-1) := by
  decide

/-- C9: a second consecutive unset of a key whose effective value is
already absent still changes the index: the effective value of a is absent
(tombstone) yet unset decrements the count of 10 from 1 to 0, because the
positive count belonging to the other key b defeats the guard. -/
theorem c9_double_unset_changes_index :
    dbC9.get "a" = none ∧
    (dbC9.numequalto "10").2 = 1 ∧
    ((dbC9.unset "a" false).numequalto "10").2 = 0 ∧
    dbC9.get "b" = some "10" := by
  decide

/-- C2 counterexample: in dbC2 the previous effective value of the key a
is 10, which exists and differs from the new value 20, so the claim
demands that the count of 10 drop by one on set a 20; the code leaves it
unchanged because it reads the previous value from the base table, which
does not mention the key. -/
theorem c2_set_effective_value_counterexample :
    dbC2.get "a" = some "10" ∧
    (dbC2.numequalto "10").2 = 1 ∧
    ((dbC2.set "a" "20" false).numequalto "10").2 = 1 ∧
    ¬ (((dbC2.set "a" "20" false).numequalto "10").2 = (dbC2.numequalto "10").2 - 1) := by
  decide

/-- C3 counterexample: the popped overlay maps a to 20 and the next
overlay down maps a to 10, so the claimed repair decrements the count of
the discarded value 20; the code skips every key touched by a remaining
overlay and leaves the count of 20 unchanged at 1. -/
theorem c3_rollback_delta_counterexample :
    dbC3.pending_transactions_list = [[("a", some "10")], [("a", some "20")]] ∧
    (dbC3.numequalto "20").2 = 1 ∧
    (((dbC3.rollback).1).numequalto "20").2 = 1 ∧
    ¬ ((((dbC3.rollback).1).numequalto "20").2 = (dbC3.numequalto "20").2 - 1) := by
  decide

/-- C5 counterexample: starting from a state whose base table already maps
a to 10, the sequence begin; set a 10; rollback leaves numequalto 10 at 2
instead of restoring the prior result 1: the rollback repair increments
the count for the base value and decrements it for the popped entry, while
the set before it had already incremented it without a matching decrement. -/
theorem c5_begin_set_rollback_counterexample :
    (dbC5.numequalto "10").2 = 1 ∧
    ((((dbC5.begin).set "a" "10" false).rollback).1.numequalto "10").2 = 2 := by
  decide

/-- Component-wise description of set in the interactive mode (commit flag
off), used by the amended claims about set and about the begin, set,
rollback round trip. -/
theorem set_false_components (db : Database) (k : Key) (v : Val) :
    (db.set k v false).database =
      (if db.pending_transactions_list.isEmpty then aset k v db.database else db.database) ∧
    (db.set k v false).pending_transactions_list =
      (if db.pending_transactions_list.isEmpty then db.pending_transactions_list
       else setInLast k (some v) db.pending_transactions_list) ∧
    (db.set k v false).value_count =
      (match alookup k db.database with
       | some ov =>
         if ov ≠ "" ∧ ov ≠ v then dincr (dincr db.value_count v 1) ov (-1)
         else dincr db.value_count v 1
       | none => dincr db.value_count v 1) := by
  unfold Database.set
  cases hie : db.pending_transactions_list.isEmpty with
  | true =>
    cases ho : alookup k db.database with
    | none => simp
    | some ov =>
      by_cases hov : ov ≠ "" ∧ ov ≠ v
      · simp [hov]
      · simp [hov]
  | false =>
    cases ho : alookup k db.database with
    | none => simp
    | some ov =>
      by_cases hov : ov ≠ "" ∧ ov ≠ v
      · simp [hov]
      · simp [hov]

/-- C2 (amended): set writes into the innermost overlay when a transaction
is open (overwriting any prior entry for the key in that overlay only) and
into the base table otherwise, and updates the index against the previous
BASE-TABLE value of the key rather than the previous effective value: the
count of the new value rises by one, and the count of the previous base
value falls by one exactly when that value exists, is truthy, and differs
from the new value. -/
theorem c2_set_characterization (db : Database) (k : Key) (v : Val) :
    ((db.set k v false).database, (db.set k v false).pending_transactions_list) =
      (match db.pending_transactions_list with
       | [] => (aset k v db.database, ([] : List (List (Key × Option Val))))
       | _ :: _ => (db.database, setInLast k (some v) db.pending_transactions_list)) ∧
    (∀ u, dget (db.set k v false).value_count u =
      dget db.value_count u + (if u = v then 1 else 0) -
        (if alookup k db.database = some u ∧ u ≠ "" ∧ u ≠ v then 1 else 0)) := by
  obtain ⟨hdb, hpl, hvc⟩ := set_false_components db k v
  constructor
  · cases hp : db.pending_transactions_list with
    | nil =>
      rw [hp] at hdb hpl
      simp only [List.isEmpty_nil, if_true] at hdb hpl
      rw [Prod.mk.injEq]
      exact ⟨hdb, hpl⟩
    | cons t rest =>
      rw [hp] at hdb hpl
      simp only [List.isEmpty_cons, Bool.false_eq_true, if_false] at hdb hpl
      rw [Prod.mk.injEq]
      exact ⟨hdb, hpl⟩
  · intro u
    rw [hvc]
    cases ho : alookup k db.database with
    | none =>
      rw [dget_dincr]
      simp
    | some ov =>
      show dget (if ov ≠ "" ∧ ov ≠ v then dincr (dincr db.value_count v 1) ov (-1)
          else dincr db.value_count v 1) u = _
      by_cases hov : ov ≠ "" ∧ ov ≠ v
      · rw [if_pos hov, dget_dincr, dget_dincr]
        by_cases huo : u = ov
        · subst huo
          simp [hov.1, hov.2]
          omega
        · have hne : ¬ (some ov = some u ∧ u ≠ "" ∧ u ≠ v) := by
            intro h
            exact huo (Option.some.inj h.1).symm
          rw [if_neg hne, if_neg huo]
          omega
      · rw [if_neg hov, dget_dincr]
        have hne : ¬ (some ov = some u ∧ u ≠ "" ∧ u ≠ v) := by
          intro h
          obtain ⟨h1, h2, h3⟩ := h
          cases Option.some.inj h1
          exact hov ⟨h2, h3⟩
        rw [if_neg hne]
        omega

theorem lerase_not_mem (k : Key) : ∀ ks : List Key, k ∉ ks → lerase k ks = ks := by
  intro ks
  induction ks with
  | nil => intro _; rfl
  | cons x rest ih =>
    intro h
    have hx : ¬ (x = k) := fun he => h (he ▸ List.mem_cons_self x rest)
    have hr : k ∉ rest := fun hm => h (List.mem_cons_of_mem x hm)
    simp [lerase, hx, ih hr]

theorem lerase_sublist (k : Key) : ∀ ks : List Key, List.Sublist (lerase k ks) ks := by
  intro ks
  induction ks with
  | nil => simp [lerase]
  | cons x rest ih =>
    by_cases hx : x = k
    · simp only [lerase, if_pos hx]
      exact List.sublist_cons_self x rest
    · simp only [lerase, if_neg hx]
      exact List.Sublist.cons₂ x ih

theorem lerase_eq_filter_of_nodup (k : Key) :
    ∀ ks : List Key, ks.Nodup → lerase k ks = ks.filter (fun x => !decide (x = k)) := by
  intro ks
  induction ks with
  | nil => intro _; rfl
  | cons x rest ih =>
    intro h
    have hx_rest : x ∉ rest := (List.nodup_cons.mp h).1
    have hrest : rest.Nodup := (List.nodup_cons.mp h).2
    by_cases hx : x = k
    · subst hx
      have : rest.filter (fun y => !decide (y = x)) = rest := by
        rw [List.filter_eq_self]
        intro a ha
        have : ¬ (a = x) := fun he => hx_rest (he ▸ ha)
        simp [this]
      simp [lerase, this]
    · simp [lerase, hx, ih hrest]

theorem eraseFold_eq_filter :
    ∀ (K : List Key) (ks : List Key), ks.Nodup →
      K.foldl (fun ks2 pk => lerase pk ks2) ks = ks.filter (fun x => !decide (x ∈ K)) := by
  intro K
  induction K with
  | nil =>
    intro ks _
    rw [List.foldl_nil, Eq.comm, List.filter_eq_self]
    intro a _
    simp
  | cons a K' ih =>
    intro ks h
    rw [List.foldl_cons]
    have hnd2 : (lerase a ks).Nodup := List.Nodup.sublist (lerase_sublist a ks) h
    rw [ih (lerase a ks) hnd2, lerase_eq_filter_of_nodup a ks h, List.filter_filter]
    apply List.filter_congr
    intro x _
    by_cases hxa : x = a
    · simp [hxa]
    · by_cases hxK : x ∈ K' <;> simp [hxa, hxK]

theorem alookup_none_iff_not_mem_keys (k : Key) :
    ∀ d : List (Key × α), alookup k d = none ↔ k ∉ d.map Prod.fst := by
  intro d
  induction d with
  | nil => simp [alookup]
  | cons kv rest ih =>
    obtain ⟨k', v'⟩ := kv
    by_cases hk : k' = k
    · subst hk
      simp [alookup]
    · have hk2 : ¬ (k = k') := fun h => hk h.symm
      simp [alookup, hk, hk2, ih]

theorem keyUntouched_iff (k : Key) :
    ∀ remaining : List (List (Key × Option Val)),
      keyUntouched k remaining = true ↔ k ∉ (remaining.flatten.map Prod.fst) := by
  intro remaining
  induction remaining with
  | nil => simp [keyUntouched]
  | cons t rest ih =>
    simp [keyUntouched, List.map_append, Option.isNone_iff_eq_none,
      alookup_none_iff_not_mem_keys, ih, not_or]

theorem rollback_keys_eq (remaining : List (List (Key × Option Val))) (keys0 : List Key)
    (h : keys0.Nodup) :
    remaining.foldl
        (fun ks pending => (pending.map Prod.fst).foldl (fun ks2 pk => lerase pk ks2) ks) keys0 =
      keys0.filter (fun x => keyUntouched x remaining) := by
  have hinner : ∀ (pending : List (Key × Option Val)) (ks : List Key),
      (pending.map Prod.fst).foldl (fun ks2 pk => lerase pk ks2) ks =
        pending.foldl (fun ks2 p => lerase p.1 ks2) ks := by
    intro pending ks
    rw [List.foldl_map]
  have h1 : ∀ (rem : List (List (Key × Option Val))) (ks : List Key),
      rem.foldl (fun ks3 pending => (pending.map Prod.fst).foldl (fun ks2 pk => lerase pk ks2) ks3) ks =
      rem.foldl (fun ks3 pending => pending.foldl (fun ks2 p => lerase p.1 ks2) ks3) ks := by
    intro rem
    induction rem with
    | nil => intro ks; rfl
    | cons p rem2 ih =>
      intro ks
      rw [List.foldl_cons, List.foldl_cons, hinner, ih]
  have h2 : (remaining.flatten.map Prod.fst).foldl (fun ks2 pk => lerase pk ks2) keys0 =
      remaining.flatten.foldl (fun ks2 p => lerase p.1 ks2) keys0 := by
    rw [List.foldl_map]
  rw [h1, foldl_inner_eq_join, ← h2, eraseFold_eq_filter _ keys0 h]
  apply List.filter_congr
  intro x _
  rw [Bool.eq_iff_iff]
  simp [keyUntouched_iff]

theorem rollback_concat (db : Database) (rest : List (List (Key × Option Val)))
    (t : List (Key × Option Val))
    (hp : db.pending_transactions_list = rest ++ [t])
    (hnd : (t.map Prod.fst).Nodup) :
    db.rollback =
      ({ db with pending_transactions_list := rest,
                 value_count := amendedRollbackRepair db.database t rest db.value_count }, true) := by
  unfold Database.rollback amendedRollbackRepair
  rw [hp, List.getLast?_concat]
  show ({ db with pending_transactions_list := (rest ++ [t]).dropLast,
                  value_count :=
                    ((rest ++ [t]).dropLast.foldl
                      (fun (ks : List Key) (pending : List (Key × Option Val)) =>
                        (pending.map Prod.fst).foldl (fun ks2 pk => lerase pk ks2) ks)
                      (t.map Prod.fst)).foldl
                      (fun (vc : List (Val × Int)) (key : Key) =>
                        let vc1 :=
                          match alookup key db.database with
                          | some ov => if ov ≠ "" then dincr vc ov 1 else vc
                          | none => vc
                        match alookup key t with
                        | some (some tval) => dincr vc1 tval (-1)
                        | _ => vc1) db.value_count }, true) = _
  rw [List.dropLast_concat, rollback_keys_eq rest (t.map Prod.fst) hnd]

/-- C3 (amended): rollback pops the innermost overlay, but the index repair
covers only the keys of the popped overlay that no remaining overlay
touches, and for those it compares the popped entry against the BASE table
(not the next overlay down): the truthy base value of the key has its
count incremented and the popped non-tombstone entry has its count
decremented; keys touched by any remaining overlay receive no repair at
all. -/
theorem c3_rollback_characterization (db : Database) (rest : List (List (Key × Option Val)))
    (t : List (Key × Option Val))
    (hp : db.pending_transactions_list = rest ++ [t])
    (hnd : (t.map Prod.fst).Nodup) :
    db.rollback =
      ({ db with pending_transactions_list := rest,
                 value_count := amendedRollbackRepair db.database t rest db.value_count }, true) :=
  rollback_concat db rest t hp hnd

/-- Witness for c3_rollback_characterization at a concrete reachable state. -/
theorem c3_rollback_characterization_witness :
    (dbC3w.pending_transactions_list = [] ++ [[("a", some "10"), ("x", none)]] ∧
     (([("a", some "10"), ("x", none)] : List (Key × Option Val)).map Prod.fst).Nodup) ∧
    dbC3w.rollback =
      ({ dbC3w with pending_transactions_list := [],
                    value_count := amendedRollbackRepair dbC3w.database
                      [("a", some "10"), ("x", none)] [] dbC3w.value_count }, true) :=
  ⟨⟨by decide, by decide⟩,
   c3_rollback_characterization dbC3w [] [("a", some "10"), ("x", none)] (by decide) (by decide)⟩

theorem isEmpty_concat_false (l : List (List (Key × Option Val))) (x : List (Key × Option Val)) :
    (l ++ [x]).isEmpty = false := by
  cases l <;> rfl

theorem get_ext (dbA dbB : Database) (h1 : dbA.database = dbB.database)
    (h2 : dbA.pending_transactions_list = dbB.pending_transactions_list) (key : Key) :
    dbA.get key = dbB.get key := by
  unfold Database.get
  rw [h1, h2]

/-- C5 (amended): begin; set k v; rollback restores get for every key
unconditionally (the round trip never touches the base table and the stack
returns exactly), and restores every numequalto result provided that no
overlay of the prior stack defines k and that the base table does not
already map k to v; the counterexample shows the second proviso necessary,
and a key defined in an outer overlay violates the first. -/
theorem c5_begin_set_rollback_restores (db : Database) (k : Key) (v : Val) :
    (∀ key, ((((db.begin).set k v false).rollback).1).get key = db.get key) ∧
    (alookup k db.database ≠ some v →
      keyUntouched k db.pending_transactions_list = true →
      ∀ u, ((((db.begin).set k v false).rollback).1.numequalto u).2 = (db.numequalto u).2) := by
  obtain ⟨hsd, hsp, hsv⟩ := set_false_components (db.begin) k v
  have hie : (db.begin).pending_transactions_list.isEmpty = false :=
    isEmpty_concat_false db.pending_transactions_list []
  rw [hie] at hsd hsp
  simp only [Bool.false_eq_true, if_false] at hsd hsp
  have hsd2 : ((db.begin).set k v false).database = db.database := hsd
  have hsp2 : ((db.begin).set k v false).pending_transactions_list =
      db.pending_transactions_list ++ [[(k, some v)]] := by
    rw [hsp]
    show setInLast k (some v) (db.pending_transactions_list ++ [[]]) = _
    rw [setInLast_concat]
    rfl
  have hsv2 : ((db.begin).set k v false).value_count =
      (match alookup k db.database with
       | some ov =>
         if ov ≠ "" ∧ ov ≠ v then dincr (dincr db.value_count v 1) ov (-1)
         else dincr db.value_count v 1
       | none => dincr db.value_count v 1) := hsv
  have hroll := rollback_concat ((db.begin).set k v false) db.pending_transactions_list
    [(k, some v)] hsp2 (by simp)
  constructor
  · intro key
    rw [hroll]
    refine get_ext _ db ?_ ?_ key
    · exact hsd2
    · rfl
  · intro hbase hstack u
    rw [hroll, numequalto_snd, numequalto_snd]
    show dget (amendedRollbackRepair ((db.begin).set k v false).database [(k, some v)]
        db.pending_transactions_list ((db.begin).set k v false).value_count) u =
      dget db.value_count u
    rw [hsd2]
    unfold amendedRollbackRepair
    have hfilter : (([(k, some v)] : List (Key × Option Val)).map Prod.fst).filter
        (fun key => keyUntouched key db.pending_transactions_list) = [k] := by
      simp [hstack]
    rw [hfilter]
    simp only [List.foldl_cons, List.foldl_nil]
    have hkk : alookup k ([(k, some v)] : List (Key × Option Val)) = some (some v) := by
      simp [alookup]
    rw [hkk]
    cases ho : alookup k db.database with
    | none =>
      have hv2 : ((db.begin).set k v false).value_count = dincr db.value_count v 1 := by
        rw [hsv2, ho]
      show dget (dincr ((db.begin).set k v false).value_count v (-1)) u = dget db.value_count u
      rw [hv2, dget_dincr, dget_dincr]
      by_cases huv : u = v
      · rw [if_pos huv, if_pos huv]
        omega
      · rw [if_neg huv, if_neg huv]
        omega
    | some ov =>
      have hovv : ov ≠ v := by
        intro he
        rw [he] at ho
        exact hbase ho
      show dget (dincr
          (if ov ≠ "" then dincr (((db.begin).set k v false).value_count) ov 1
           else ((db.begin).set k v false).value_count) v (-1)) u = dget db.value_count u
      by_cases hove : ov = ""
      · have hv2 : ((db.begin).set k v false).value_count = dincr db.value_count v 1 := by
          rw [hsv2, ho]
          show (if ov ≠ "" ∧ ov ≠ v then dincr (dincr db.value_count v 1) ov (-1)
              else dincr db.value_count v 1) = dincr db.value_count v 1
          rw [if_neg (fun h => h.1 hove)]
        rw [hv2, if_neg (fun h => h hove), dget_dincr, dget_dincr]
        by_cases huv : u = v
        · rw [if_pos huv, if_pos huv]
          omega
        · rw [if_neg huv, if_neg huv]
          omega
      · have hv2 : ((db.begin).set k v false).value_count =
            dincr (dincr db.value_count v 1) ov (-1) := by
          rw [hsv2, ho]
          show (if ov ≠ "" ∧ ov ≠ v then dincr (dincr db.value_count v 1) ov (-1)
              else dincr db.value_count v 1) = dincr (dincr db.value_count v 1) ov (-1)
          rw [if_pos ⟨hove, hovv⟩]
        rw [hv2, if_pos hove, dget_dincr, dget_dincr, dget_dincr, dget_dincr]
        by_cases huv : u = v
        · by_cases huo : u = ov
          · rw [if_pos huv, if_pos huv, if_pos huo, if_pos huo]
            omega
          · rw [if_pos huv, if_pos huv, if_neg huo, if_neg huo]
            omega
        · by_cases huo : u = ov
          · rw [if_neg huv, if_neg huv, if_pos huo, if_pos huo]
            omega
          · rw [if_neg huv, if_neg huv, if_neg huo, if_neg huo]
            omega

/-- Witness for c5_begin_set_rollback_restores at a concrete state. -/
theorem c5_begin_set_rollback_restores_witness :
    (alookup "b" dbC5.database ≠ some "20" ∧
     keyUntouched "b" dbC5.pending_transactions_list = true) ∧
    ((((dbC5.begin).set "b" "20" false).rollback).1).get "a" = dbC5.get "a" ∧
    ((((dbC5.begin).set "b" "20" false).rollback).1.numequalto "10").2 = (dbC5.numequalto "10").2 :=
  ⟨⟨by decide, by decide⟩,
   (c5_begin_set_rollback_restores dbC5 "b" "20").1 "a",
   (c5_begin_set_rollback_restores dbC5 "b" "20").2 (by decide) (by decide) "10"⟩
